import Mathlib

/- Verification development for a small YouTube-captions HTTP proxy
   (src/app/main.py).  The program is embedded shallowly:

   * Python floats carrying cue timings are embedded as exact fractions
     (`PyF`, an integer numerator over a natural denominator, not
     normalised).  Every float a claim mentions is a dyadic rational on
     which Python float arithmetic is exact, so the fraction semantics
     agrees with the source on all inputs considered here.
   * Python strings are embedded as `String` / `List Char`; `str.strip`,
     `str.split`, `str.lower`, `"x" in s` and f-string padding are
     re-implemented below, character-wise (ASCII scope, which covers every
     string the program manipulates).
   * The external youtube-transcript-api library is an opaque collaborator:
     its entry points are fields of a `Provider` record.  The in-memory
     catalogue lookups whose behaviour the spec fixes are modelled
     concretely (see `find_transcript`).
   * Exceptions are values of `Exc`; library calls return `Except Exc _`.
     An exception that escapes the FastAPI handler is the `ApiOut.crash`
     outcome, an `HTTPException` is `ApiOut.http status detail`. -/

namespace YTProxy

/-! ## Python string primitives -/

/-- Whitespace as stripped by `str.strip()` (the characters that actually
occur in the program's strings). -/
def isWs (c : Char) : Bool := c == ' ' || c == '\t' || c == '\n' || c == '\r'

/-- Leading-whitespace removal (left half of `str.strip()`). -/
def stripLead (l : List Char) : List Char := l.dropWhile (fun c => isWs c)

/-- Trailing-whitespace removal (right half of `str.strip()`). -/
def stripTrail (l : List Char) : List Char := (l.reverse.dropWhile (fun c => isWs c)).reverse

/-- Python `str.strip()`. -/
def pyStrip (l : List Char) : List Char := stripTrail (stripLead l)

/-- Python `str.split(sep)` for a one-character separator. -/
def splitOnChar (sep : Char) : List Char → List (List Char)
  | [] => [[]]
  | c :: t =>
    if c == sep then [] :: splitOnChar sep t
    else
      match splitOnChar sep t with
      | [] => [[c]]
      | h :: r => (c :: h) :: r

/-- Python `"\n".join(lines)`. -/
def joinNl : List (List Char) → List Char
  | [] => []
  | [l] => l
  | l :: l2 :: ls => l ++ '\n' :: joinNl (l2 :: ls)

/-- Does `l` start with `pat`? -/
def listStarts : List Char → List Char → Bool
  | _, [] => true
  | [], _ :: _ => false
  | a :: as, b :: bs => a == b && listStarts as bs

/-- Python `pat in hay` (contiguous-substring test). -/
def hasSub : List Char → List Char → Bool
  | [], pat => listStarts [] pat
  | a :: t, pat => listStarts (a :: t) pat || hasSub t pat

/-- Python `str.lower()` (character-wise; ASCII scope). -/
def lowerChars (l : List Char) : List Char := l.map Char.toLower

/-! ## Decimal rendering: str of an index, and zero-padded f-string fields -/

def digitChar (d : Nat) : Char :=
  match d with
  | 0 => '0'
  | 1 => '1'
  | 2 => '2'
  | 3 => '3'
  | 4 => '4'
  | 5 => '5'
  | 6 => '6'
  | 7 => '7'
  | 8 => '8'
  | 9 => '9'
  | _ => '?'

/-- Digit accumulator; the fuel argument only bounds the recursion depth
(`n` itself is always enough fuel since `n / 10 < n` for `n > 0`). -/
def natDigitsAux : Nat → Nat → List Char → List Char
  | 0, _, acc => acc
  | _ + 1, 0, acc => acc
  | fuel + 1, n + 1, acc => natDigitsAux fuel ((n + 1) / 10) (digitChar ((n + 1) % 10) :: acc)

/-- Decimal rendering of a natural number, as Python `str`. -/
def natRepr (n : Nat) : String :=
  if n = 0 then "0" else String.mk (natDigitsAux n n [])

/-- Zero-pad a natural's decimal form to minimum width `w`. -/
def padNat (w : Nat) (n : Nat) : String :=
  String.mk (List.replicate (w - (natRepr n).length) '0') ++ natRepr n

/-- Python zero-padded integer formatting: minimum width `w`, zero fill
after the sign. -/
def padInt (w : Nat) (z : Int) : String :=
  if z < 0 then "-" ++ padNat (w - 1) z.natAbs else padNat w z.toNat

/-! ## Python float / numeric primitives -/

/-- A Python float value, embedded as the exact fraction `num / den`
(not normalised; `den` is positive for every value the program builds). -/
structure PyF where
  num : Int
  den : Nat
deriving DecidableEq

/-- The rational value of an embedded float. -/
def PyF.val (q : PyF) : ℚ := (q.num : ℚ) / (q.den : ℚ)

def pyOfInt (z : Int) : PyF := ⟨z, 1⟩

/-- Float addition (exact on every value the claims involve). -/
def pyAdd (a b : PyF) : PyF := ⟨a.num * b.den + b.num * a.den, a.den * b.den⟩

/-- Float subtraction. -/
def pySub (a b : PyF) : PyF := ⟨a.num * b.den - b.num * a.den, a.den * b.den⟩

/-- Float times a natural literal. -/
def pyMulNat (a : PyF) (n : Nat) : PyF := ⟨a.num * n, a.den⟩

/-- Python `q // n` (floor division) for a positive integer divisor,
already truncated to `int` (the source wraps it in `int(...)`, which is
the identity on an integral float). -/
def pyFloorDiv (q : PyF) (n : Nat) : Int := Int.fdiv q.num (n * q.den)

/-- Python `q % n` (sign of the divisor, here a positive integer). -/
def pyMod (q : PyF) (n : Nat) : PyF := ⟨q.num - (n * q.den : Int) * pyFloorDiv q n, q.den⟩

/-- Python `int(q)`: truncation toward zero. -/
def pyTrunc (q : PyF) : Int := Int.tdiv q.num q.den

/-- Python `round(q)`: round half to even. -/
def pyRound (q : PyF) : Int :=
  let f := Int.fdiv q.num q.den
  let r := q.num - (q.den : Int) * f
  if 2 * r < (q.den : Int) then f
  else if (q.den : Int) < 2 * r then f + 1
  else if f % 2 = 0 then f else f + 1

/-! ## `_format_ts` and `to_srt` -/

/-- The milliseconds component of `_format_ts`:
`int(round((sec - int(sec)) * 1000))` (the outer `int` is the identity,
Python `round` already returns an integer). -/
def msOf (sec : PyF) : Int :=
  pyRound (pyMulNat (pySub sec (pyOfInt (pyTrunc sec))) 1000)

/-- Embeds `_format_ts(sec)` from src/app/main.py. -/
def format_ts (sec : PyF) : String :=
  let h := pyFloorDiv sec 3600
  let m := pyFloorDiv (pyMod sec 3600) 60
  let s := pyTrunc (pyMod sec 60)
  let ms := msOf sec
  padInt 2 h ++ (":") ++ padInt 2 m ++ (":") ++ padInt 2 s ++ (",") ++ padInt 3 ms

/-- One caption cue, a JSON dict with optional `text` / `start` /
`duration` entries (`dict.get` defaults are applied at use sites, as in
the source). -/
structure Cue where
  text : Option String
  start : Option PyF
  duration : Option PyF
deriving DecidableEq

/-- The text after newline replacement, as characters: the source's
`(it.get("text", "") or "").replace("\n", " ")`. -/
def replacedText (c : Cue) : List Char :=
  (c.text.getD ("")).data.map (fun ch => if ch == '\n' then ' ' else ch)

/-- The rendered text line: the source's
`(it.get("text", "") or "").replace("\n", " ").strip() or " "`. -/
def normText (c : Cue) : String :=
  if pyStrip (replacedText c) = [] then (" ") else String.mk (pyStrip (replacedText c))

/-- The timing line of one cue. -/
def tsLine (c : Cue) : String :=
  let st := c.start.getD (pyOfInt 0)
  let en := pyAdd st (c.duration.getD (pyOfInt 0))
  format_ts st ++ (" --> ") ++ format_ts en

/-- The loop body of `to_srt`: four lines per cue, numbering from `i`. -/
def srtLinesFrom : Nat → List Cue → List String
  | _, [] => []
  | i, c :: rest => natRepr i :: tsLine c :: normText c :: ("") :: srtLinesFrom (i + 1) rest

/-- The `lines` list accumulated by `to_srt` (numbering starts at 1). -/
def srtLines (items : List Cue) : List String := srtLinesFrom 1 items

/-- Embeds `to_srt(items)` from src/app/main.py:
`"\n".join(lines).strip() + "\n"`. -/
def to_srt (items : List Cue) : String :=
  String.mk (pyStrip (joinNl ((srtLines items).map String.data)) ++ ['\n'])

/-- The body lines that survive the final `strip()`: all cue blocks
without the final separator line, and without the last cue's text line
when that line is the single space. -/
def srtBody (I : List Cue) (c : Cue) : List String :=
  srtLinesFrom 1 I ++
    (if normText c = " " then [natRepr (1 + I.length), tsLine c]
     else [natRepr (1 + I.length), tsLine c, normText c])

/-! ## Exceptions and the rate-limit heuristic -/

/-- A Python exception: the classes the handler distinguishes, plus a
catch-all with an explicit class name.  `msg` is `str(exc)`. -/
inductive Exc where
  | NoTranscriptFound (msg : String)
  | TranscriptsDisabled (msg : String)
  | VideoUnavailable (msg : String)
  | IndexError (msg : String)
  | Other (cls : String) (msg : String)
deriving DecidableEq

def Exc.msg : Exc → String
  | .NoTranscriptFound m => m
  | .TranscriptsDisabled m => m
  | .VideoUnavailable m => m
  | .IndexError m => m
  | .Other _ m => m

def Exc.clsName : Exc → String
  | .NoTranscriptFound _ => "NoTranscriptFound"
  | .TranscriptsDisabled _ => "TranscriptsDisabled"
  | .VideoUnavailable _ => "VideoUnavailable"
  | .IndexError _ => "IndexError"
  | .Other c _ => c

/-- Embeds `check_scraping_block(exc)` from src/app/main.py. -/
def check_scraping_block (e : Exc) : Bool :=
  let m := lowerChars e.msg.data
  if hasSub m ("429").data || hasSub m ("too many requests").data then true
  else if hasSub m ("403").data || hasSub m ("forbidden").data then true
  else false

/-- Embeds `_detail(user_msg, exc, debug, scrapingBlocked)` from src/app/main.py. -/
def detailMsg (user_msg : String) (exc : Option Exc) (debug : Bool)
    (scrapingBlocked : Bool) : String :=
  let base := user_msg ++ (if scrapingBlocked then (" (scrapingBlocked=True)") else (""))
  if debug then
    match exc with
    | some e => base ++ (" | ") ++ e.clsName ++ (": ") ++ e.msg
    | none => base
  else base

/-! ## The transcript endpoint -/

/-- A JSON value as used in the handler's response dicts. -/
inductive JVal where
  | b (v : Bool)
  | s (v : String)
  | n (v : Nat)
  | cues (v : List Cue)
deriving DecidableEq

/-- The `format` query parameter (FastAPI's regex gate admits only these). -/
inductive Format where
  | json
  | srt
deriving DecidableEq

/-- The `prefer` query parameter. -/
inductive Prefer where
  | any
  | manual
  | generated
deriving DecidableEq

/-- One available caption track, with the two attributes the handler
reads (`language_code`, `is_generated`). -/
structure Track where
  language_code : String
  is_generated : Bool
deriving DecidableEq

/-- The opaque youtube-transcript-api collaborator: direct fetch,
catalogue listing, on-the-fly translation, and cue fetching for a track. -/
structure Provider where
  get_transcript : String → List String → Except Exc (List Cue)
  list_transcripts : String → Except Exc (List Track)
  translate : Track → String → Except Exc Track
  fetch : Track → Except Exc (List Cue)

/-- A `/v1/transcript` request after FastAPI query validation. -/
structure Request where
  videoId : String
  lang : String
  format : Format
  prefer : Prefer
  allowTranslate : Bool
  debug : Bool

/-- Handler outcome: a JSON dict, an SRT plain-text response, an
`HTTPException(status, detail)`, or an exception escaping the handler
(which FastAPI turns into a generic 500). -/
inductive ApiOut where
  | json (body : List (String × JVal))
  | srt (content : String)
  | http (status : Nat) (detail : String)
  | crash (e : Exc)
deriving DecidableEq

/-- The language-list parse: `[x.strip() for x in lang.split(",") if x.strip()]`. -/
def parseLangs (lang : String) : List String :=
  ((splitOnChar ',' lang.data).map (fun l => String.mk (pyStrip l))).filter
    (fun s => s != "")

/-- Modelled from the spec: the library lookups
`tl.find_manually_created_transcript(langs)` /
`tl.find_generated_transcript(langs)` are not part of this repository;
per the spec they search the tracks of the given kind for the preferred
languages in order (first match wins) and fail with a not-found outcome
otherwise. -/
def find_transcript (generated : Bool) (tl : List Track) : List String → Except Exc Track
  | [] => Except.error (Exc.NoTranscriptFound ("no transcript found"))
  | l :: rest =>
    match tl.find? (fun t => t.is_generated == generated && t.language_code == l) with
    | some t => Except.ok t
    | none => find_transcript generated tl rest

/-- The nested `pick_transcript()` of `api_transcript`: manual lookup for
`prefer` in `manual`/`any` (lookup failure swallowed), then generated
lookup for `prefer` in `generated`/`any` (failure swallowed), else `None`. -/
def pick_transcript (prefer : Prefer) (tl : List Track) (langs : List String) : Option Track :=
  let m : Option Track :=
    if prefer == Prefer.manual || prefer == Prefer.any then
      match find_transcript false tl langs with
      | Except.ok t => some t
      | Except.error _ => none
    else none
  match m with
  | some t => some t
  | none =>
    if prefer == Prefer.generated || prefer == Prefer.any then
      match find_transcript true tl langs with
      | Except.ok t => some t
      | Except.error _ => none
    else none

/-- The translation-fallback block: base track is `manual[0]` if any
manually-created track exists, else `list(tl)[0]`; it is translated into
`langs[0]`.  Every failure inside the block (empty catalogue, empty
language list, translation error) is swallowed into `None`. -/
def translate_fallback (p : Provider) (tl : List Track) (langs : List String) : Option Track :=
  let manual := tl.filter (fun t => !t.is_generated)
  let base? : Option Track :=
    match manual with
    | b :: _ => some b
    | [] => tl.head?
  match base?, langs with
  | some b, l :: _ =>
    match p.translate b l with
    | Except.ok t => some t
    | Except.error _ => none
  | _, _ => none

/-- Steps 3 and 4 of the fallback: the preference-mode pick, then (when
it found nothing and translation is allowed) the translation fallback. -/
def resolve_track (p : Provider) (prefer : Prefer) (allowTranslate : Bool)
    (tl : List Track) (langs : List String) : Option Track :=
  match pick_transcript prefer tl langs with
  | some t => some t
  | none => if allowTranslate then translate_fallback p tl langs else none

/-- The handler's outer `except Exception` clause: 429 when the
rate-limit heuristic fires, 500 otherwise. -/
def handle_other (e : Exc) (debug : Bool) : ApiOut :=
  let sb := check_scraping_block e
  if sb then
    ApiOut.http 429 (detailMsg ("Rate limited or blocked by YouTube.") (some e) debug sb)
  else
    ApiOut.http 500 (detailMsg ("Internal server error.") (some e) debug sb)

/-- Lines 140-151 of `api_transcript`: fetch the resolved track's cues
and build the response.  Runs inside the `except NoTranscriptFound`
clause, so any exception here (a fetch failure, or the unguarded
`langs[0]` on the JSON path) escapes the handler. -/
def serve_transcript (p : Provider) (req : Request) (langs : List String) (tr : Track) : ApiOut :=
  match p.fetch tr with
  | Except.error e => ApiOut.crash e
  | Except.ok items =>
    match req.format with
    | Format.srt => ApiOut.srt (to_srt items)
    | Format.json =>
      match langs with
      | [] => ApiOut.crash (Exc.IndexError ("list index out of range"))
      | l0 :: _ =>
        ApiOut.json
          [(("videoId"), JVal.s req.videoId), (("lang"), JVal.s l0),
           (("isTranslated"), JVal.b (tr.language_code != l0)),
           (("isGenerated"), JVal.b tr.is_generated),
           (("items"), JVal.cues items),
           (("scrapingBlocked"), JVal.b false)]

/-- The `except NoTranscriptFound` clause of `api_transcript` (lines
100-151): list the catalogue (disabled/unavailable gives 404, any other
listing failure 500), pick by preference, try the translation fallback,
404 on exhaustion, otherwise serve the resolved track. -/
def fallback_path (p : Provider) (req : Request) (langs : List String) : ApiOut :=
  match p.list_transcripts req.videoId with
  | Except.error e =>
    match e with
    | Exc.TranscriptsDisabled _ =>
      ApiOut.http 404 (detailMsg ("Transcript unavailable.") (some e) req.debug
        (check_scraping_block e))
    | Exc.VideoUnavailable _ =>
      ApiOut.http 404 (detailMsg ("Transcript unavailable.") (some e) req.debug
        (check_scraping_block e))
    | _ =>
      ApiOut.http 500 (detailMsg ("Internal error while listing transcripts.") (some e)
        req.debug (check_scraping_block e))
  | Except.ok tl =>
    match resolve_track p req.prefer req.allowTranslate tl langs with
    | none =>
      ApiOut.http 404 (detailMsg ("No transcript in requested languages.") none req.debug false)
    | some tr => serve_transcript p req langs tr

/-- Embeds `api_transcript` from src/app/main.py.  The direct fetch is tried
first; `NoTranscriptFound` enters the fallback path; any other exception
raised in the `try` body (including the unguarded `langs[0]` on the JSON
success path) is mapped by the outer `except Exception` clause. -/
def api_transcript (p : Provider) (req : Request) : ApiOut :=
  let langs := parseLangs req.lang
  match p.get_transcript req.videoId langs with
  | Except.ok items =>
    match req.format with
    | Format.json =>
      match langs with
      | [] => handle_other (Exc.IndexError ("list index out of range")) req.debug
      | l0 :: _ =>
        ApiOut.json
          [(("videoId"), JVal.s req.videoId), (("lang"), JVal.s l0),
           (("items"), JVal.cues items), (("scrapingBlocked"), JVal.b false)]
    | Format.srt => ApiOut.srt (to_srt items)
  | Except.error e =>
    match e with
    | Exc.NoTranscriptFound _ => fallback_path p req langs
    | _ => handle_other e req.debug

/-- The version string reported by `api_diag`: the installed library
version when the metadata lookup succeeds, else the literal `UNKNOWN`. -/
def verOf (verLookup : Except Exc String) : String :=
  match verLookup with
  | Except.ok v => v
  | Except.error _ => "UNKNOWN"

/-- Embeds `api_diag` from src/app/main.py: report the installed provider
version (key `yta_version`, falling back to `UNKNOWN`), then one canary
fetch of the fixed video `5MgBikgcWnY` in English. -/
def api_diag (p : Provider) (verLookup : Except Exc String) : List (String × JVal) :=
  let ver := verOf verLookup
  match p.get_transcript ("5MgBikgcWnY") [("en")] with
  | Except.ok items =>
    [(("ok"), JVal.b true), (("yta_version"), JVal.s ver),
     (("sample_items"), JVal.n items.length)]
  | Except.error e =>
    [(("ok"), JVal.b false), (("yta_version"), JVal.s ver),
     (("error"), JVal.s (e.clsName ++ (": ") ++ e.msg)),
     (("scrapingBlocked"), JVal.b (check_scraping_block e))]

/-! ## Concrete fixtures for witnesses and counterexamples -/

/-- A plain cue used by the concrete scenarios. -/
def cueHello : Cue := ⟨some ("hello"), some ⟨0, 1⟩, some ⟨2, 1⟩⟩

/-- Scenario: direct fetch finds nothing, the catalogue holds a single
manually-created Korean track, translation unavailable. -/
def provKo : Provider :=
  { get_transcript := fun _ _ => Except.error (Exc.NoTranscriptFound ("none"))
    list_transcripts := fun _ => Except.ok [⟨"ko", false⟩]
    translate := fun _ _ => Except.error (Exc.Other ("TranslationError") ("cannot translate"))
    fetch := fun _ => Except.ok [cueHello] }

/-- Request: `videoId=VID&lang=en,ko&format=json&prefer=any`. -/
def reqEnKo : Request := ⟨"VID", "en,ko", Format.json, Prefer.any, true, false⟩

/-- Scenario: direct fetch finds nothing and the catalogue listing dies
with a rate-limited error. -/
def provList429 : Provider :=
  { get_transcript := fun _ _ => Except.error (Exc.NoTranscriptFound ("none"))
    list_transcripts := fun _ =>
      Except.error (Exc.Other ("RequestError") ("HTTP Error 429: Too Many Requests"))
    translate := fun _ _ => Except.error (Exc.Other ("TranslationError") ("cannot translate"))
    fetch := fun _ => Except.ok [cueHello] }

/-- Scenario: the direct fetch itself dies with a rate-limited error. -/
def provDirect429 : Provider :=
  { get_transcript := fun _ _ => Except.error (Exc.Other ("RequestError") ("HTTP Error 429"))
    list_transcripts := fun _ => Except.ok []
    translate := fun _ _ => Except.error (Exc.Other ("TranslationError") ("cannot translate"))
    fetch := fun _ => Except.ok [] }

/-- Scenario: a healthy canary fetch returning one cue. -/
def provDiagOk : Provider :=
  { get_transcript := fun _ _ => Except.ok [cueHello]
    list_transcripts := fun _ => Except.ok []
    translate := fun t _ => Except.ok t
    fetch := fun _ => Except.ok [] }

/-- Scenario: the direct fetch succeeds whatever the language list. -/
def provAlwaysOk : Provider :=
  { get_transcript := fun _ _ => Except.ok [cueHello]
    list_transcripts := fun _ => Except.ok []
    translate := fun t _ => Except.ok t
    fetch := fun _ => Except.ok [cueHello] }

/-- Does the exception match the catalogue-listing clause that yields 404? -/
def isDisabledOrUnavailable : Exc → Bool
  | Exc.TranscriptsDisabled _ => true
  | Exc.VideoUnavailable _ => true
  | _ => false

/-! ## Sanity checks on the primitives (concrete evaluations) -/

example : format_ts ⟨7323, 2⟩ = "01:01:01,500" := by decide
example : format_ts ⟨14655, 4⟩ = "01:01:03,750" := by decide
example : format_ts ⟨0, 1⟩ = "00:00:00,000" := by decide
example : natRepr 1234 = "1234" := by decide
example : to_srt [] = "\n" := by decide
example : check_scraping_block (Exc.Other ("RequestError") ("HTTP 429 Too Many Requests")) = true := by
  decide
example : check_scraping_block (Exc.IndexError ("list index out of range")) = false := by decide
example :
    api_transcript provKo reqEnKo =
      ApiOut.json
        [(("videoId"), JVal.s ("VID")), (("lang"), JVal.s ("en")),
         (("isTranslated"), JVal.b true),
         (("isGenerated"), JVal.b false),
         (("items"), JVal.cues [cueHello]),
         (("scrapingBlocked"), JVal.b false)] := by decide

/-! ## Lemmas about the substring heuristic -/

theorem listStarts_map (f : Char → Char) :
    ∀ l pat : List Char, listStarts l pat = true →
      listStarts (l.map f) (pat.map f) = true := by
  intro l
  induction l with
  | nil =>
    intro pat h
    cases pat with
    | nil => simp [listStarts]
    | cons b bs => simp [listStarts] at h
  | cons a as ih =>
    intro pat h
    cases pat with
    | nil => simp [listStarts]
    | cons b bs =>
      simp only [listStarts, Bool.and_eq_true, beq_iff_eq] at h
      simp only [List.map_cons, listStarts, Bool.and_eq_true, beq_iff_eq]
      exact ⟨by rw [h.1], ih bs h.2⟩

theorem hasSub_map (f : Char → Char) :
    ∀ l pat : List Char, hasSub l pat = true →
      hasSub (l.map f) (pat.map f) = true := by
  intro l
  induction l with
  | nil =>
    intro pat h
    cases pat with
    | nil => simp [hasSub, listStarts]
    | cons b bs => simp [hasSub, listStarts] at h
  | cons a as ih =>
    intro pat h
    simp only [hasSub, Bool.or_eq_true] at h
    simp only [List.map_cons, hasSub, Bool.or_eq_true]
    cases h with
    | inl h =>
      left
      have := listStarts_map f (a :: as) pat h
      simpa using this
    | inr h => exact Or.inr (ih pat h)

/-- Claim C8: the rate-limit/block classifier returns true iff the
lowercased message contains one of the four tokens; in particular any
message containing `429` verbatim (digits have no case) is classified as
rate limited regardless of other content. -/
theorem claim_C8 (e : Exc) :
    (check_scraping_block e = true ↔
      (hasSub (lowerChars e.msg.data) ("429").data = true
        ∨ hasSub (lowerChars e.msg.data) ("too many requests").data = true
        ∨ hasSub (lowerChars e.msg.data) ("403").data = true
        ∨ hasSub (lowerChars e.msg.data) ("forbidden").data = true))
    ∧ (hasSub e.msg.data ("429").data = true → check_scraping_block e = true) := by
  constructor
  · unfold check_scraping_block
    cases h1 : hasSub (lowerChars e.msg.data) ("429").data <;>
      cases h2 : hasSub (lowerChars e.msg.data) ("too many requests").data <;>
      cases h3 : hasSub (lowerChars e.msg.data) ("403").data <;>
      cases h4 : hasSub (lowerChars e.msg.data) ("forbidden").data <;>
      simp [h1, h2, h3, h4]
  · intro h
    have h429 : hasSub (lowerChars e.msg.data) ("429").data = true := by
      have hm := hasSub_map Char.toLower e.msg.data (("429").data) h
      have hpat : (("429").data).map Char.toLower = ("429").data := by decide
      rw [hpat] at hm
      exact hm
    unfold check_scraping_block
    simp [h429]

/-- Witness for C8 at a concrete exception whose message carries `429`
inside other text and mixed-case content. -/
theorem claim_C8_witness :
    check_scraping_block (Exc.Other ("RequestError") ("Server said X429Y FORBIDDEN")) = true :=
  (claim_C8 (Exc.Other ("RequestError") ("Server said X429Y FORBIDDEN"))).2 (by decide)

/-! ## Claims about the transcript endpoint -/

/-- Claim C1, counterexample: on a fallback-path JSON success the served
track is the catalogue's Korean track, yet the response's `lang` field
is the first requested code `en`, not the served `ko` — the claim's
"lang reflects the language actually served" is false here. -/
theorem claim_C1_counterexample :
    api_transcript provKo reqEnKo =
      ApiOut.json
        [(("videoId"), JVal.s ("VID")), (("lang"), JVal.s ("en")),
         (("isTranslated"), JVal.b true), (("isGenerated"), JVal.b false),
         (("items"), JVal.cues [cueHello]), (("scrapingBlocked"), JVal.b false)]
    ∧ resolve_track provKo Prefer.any true [⟨("ko"), false⟩] [("en"), ("ko")] =
        some ⟨("ko"), false⟩
    ∧ parseLangs reqEnKo.lang = [("en"), ("ko")]
    ∧ List.lookup ("lang")
        [(("videoId"), JVal.s ("VID")), (("lang"), JVal.s ("en")),
         (("isTranslated"), JVal.b true), (("isGenerated"), JVal.b false),
         (("items"), JVal.cues [cueHello]), (("scrapingBlocked"), JVal.b false)] =
        some (JVal.s ("en"))
    ∧ JVal.s ("en") ≠ JVal.s ("ko") :=
  ⟨by decide, by decide, by decide, by decide, by decide⟩

/-- Claim C1, amended: on every fallback-path JSON success the response
echoes `videoId` verbatim, its `lang` field is always the FIRST requested
code (`langs[0]`, regardless of which track was served), `isTranslated`
is true exactly when the served track's language code differs from that
first requested code, and `isGenerated` reports the served track's
machine-generated flag. -/
theorem claim_C1_amended (p : Provider) (req : Request) (m : String) (tl : List Track)
    (tr : Track) (items : List Cue) (l0 : String) (ls : List String)
    (hlangs : parseLangs req.lang = l0 :: ls)
    (hdirect : p.get_transcript req.videoId (l0 :: ls) =
      Except.error (Exc.NoTranscriptFound m))
    (hlist : p.list_transcripts req.videoId = Except.ok tl)
    (hres : resolve_track p req.prefer req.allowTranslate tl (l0 :: ls) = some tr)
    (hfetch : p.fetch tr = Except.ok items)
    (hfmt : req.format = Format.json) :
    api_transcript p req =
      ApiOut.json
        [(("videoId"), JVal.s req.videoId), (("lang"), JVal.s l0),
         (("isTranslated"), JVal.b (tr.language_code != l0)),
         (("isGenerated"), JVal.b tr.is_generated),
         (("items"), JVal.cues items),
         (("scrapingBlocked"), JVal.b false)] := by
  simp only [api_transcript, hlangs, hdirect, fallback_path, hlist, hres,
    serve_transcript, hfetch, hfmt]

/-- Witness for the amended C1 on the concrete Korean-catalogue scenario. -/
theorem claim_C1_amended_witness :
    api_transcript provKo reqEnKo =
      ApiOut.json
        [(("videoId"), JVal.s ("VID")), (("lang"), JVal.s ("en")),
         (("isTranslated"), JVal.b true), (("isGenerated"), JVal.b false),
         (("items"), JVal.cues [cueHello]), (("scrapingBlocked"), JVal.b false)] :=
  claim_C1_amended provKo reqEnKo ("none") [⟨("ko"), false⟩] ⟨("ko"), false⟩ [cueHello]
    ("en") [("ko")] (by decide) rfl rfl (by decide) rfl rfl

/-- Claim C2, counterexample: a catalogue-listing failure that is not
disabled/unavailable but carries a rate-limit signal is answered with
HTTP 500 (the signal only annotates the detail), not 429 as claimed. -/
theorem claim_C2_counterexample :
    api_transcript provList429 reqEnKo =
      ApiOut.http 500 ("Internal error while listing transcripts. (scrapingBlocked=True)")
    ∧ check_scraping_block (Exc.Other ("RequestError") ("HTTP Error 429: Too Many Requests")) =
        true
    ∧ (∀ d : String, ApiOut.http 500
        ("Internal error while listing transcripts. (scrapingBlocked=True)") ≠ ApiOut.http 429 d) :=
  ⟨by decide, by decide, fun _ h => by cases h⟩

/-- Claim C2, amended: catalogue-listing failures of kind
disabled/unavailable give 404; full fallback exhaustion gives 404; a
failure of the direct fetch other than `NoTranscriptFound` is mapped by
the outer handler to 429 when the rate-limit heuristic fires and to 500
otherwise; but any OTHER catalogue-listing failure gives 500 even when it
carries a rate-limit signal (the signal only annotates the message). -/
theorem claim_C2_amended :
    (∀ (p : Provider) (req : Request) (m : String) (e : Exc),
      p.get_transcript req.videoId (parseLangs req.lang) =
        Except.error (Exc.NoTranscriptFound m) →
      p.list_transcripts req.videoId = Except.error e →
      isDisabledOrUnavailable e = true →
      api_transcript p req =
        ApiOut.http 404 (detailMsg ("Transcript unavailable.") (some e) req.debug
          (check_scraping_block e)))
    ∧ (∀ (p : Provider) (req : Request) (m : String) (e : Exc),
      p.get_transcript req.videoId (parseLangs req.lang) =
        Except.error (Exc.NoTranscriptFound m) →
      p.list_transcripts req.videoId = Except.error e →
      isDisabledOrUnavailable e = false →
      api_transcript p req =
        ApiOut.http 500 (detailMsg ("Internal error while listing transcripts.") (some e)
          req.debug (check_scraping_block e)))
    ∧ (∀ (p : Provider) (req : Request) (m : String) (tl : List Track),
      p.get_transcript req.videoId (parseLangs req.lang) =
        Except.error (Exc.NoTranscriptFound m) →
      p.list_transcripts req.videoId = Except.ok tl →
      resolve_track p req.prefer req.allowTranslate tl (parseLangs req.lang) = none →
      api_transcript p req =
        ApiOut.http 404 (detailMsg ("No transcript in requested languages.") none
          req.debug false))
    ∧ (∀ (p : Provider) (req : Request) (e : Exc),
      p.get_transcript req.videoId (parseLangs req.lang) = Except.error e →
      (∀ m, e ≠ Exc.NoTranscriptFound m) →
      api_transcript p req = handle_other e req.debug)
    ∧ (∀ (e : Exc) (d : Bool), check_scraping_block e = true →
      handle_other e d =
        ApiOut.http 429 (detailMsg ("Rate limited or blocked by YouTube.") (some e) d true))
    ∧ (∀ (e : Exc) (d : Bool), check_scraping_block e = false →
      handle_other e d =
        ApiOut.http 500 (detailMsg ("Internal server error.") (some e) d false)) := by
  refine ⟨?_, ?_, ?_, ?_, ?_, ?_⟩
  · intro p req m e hdir hlist hkind
    cases e <;> simp_all [api_transcript, fallback_path, isDisabledOrUnavailable]
  · intro p req m e hdir hlist hkind
    cases e <;> simp_all [api_transcript, fallback_path, isDisabledOrUnavailable]
  · intro p req m tl hdir hlist hres
    simp only [api_transcript, hdir, fallback_path, hlist, hres]
  · intro p req e hdir hne
    cases e with
    | NoTranscriptFound m => exact absurd rfl (hne m)
    | TranscriptsDisabled m => simp only [api_transcript, hdir]
    | VideoUnavailable m => simp only [api_transcript, hdir]
    | IndexError m => simp only [api_transcript, hdir]
    | Other c m => simp only [api_transcript, hdir]
  · intro e d h
    simp only [handle_other, h, if_true]
  · intro e d h
    simp only [handle_other, h, Bool.false_eq_true, if_false]

/-- Witness for the amended C2: a direct-fetch failure whose message
carries `429` is answered with HTTP 429. -/
theorem claim_C2_amended_witness :
    api_transcript provDirect429 reqEnKo =
      ApiOut.http 429 (detailMsg ("Rate limited or blocked by YouTube.")
        (some (Exc.Other ("RequestError") ("HTTP Error 429"))) false true) := by
  have h1 := claim_C2_amended.2.2.2.1 provDirect429 reqEnKo
    (Exc.Other ("RequestError") ("HTTP Error 429")) rfl
    (fun m hm => Exc.noConfusion hm)
  have h2 := claim_C2_amended.2.2.2.2.1 (Exc.Other ("RequestError") ("HTTP Error 429"))
    false (by decide)
  rw [h1]
  exact h2

/-- In an all-generated catalogue the manual lookup always fails. -/
theorem find_manual_none (tl : List Track) (hall : ∀ t ∈ tl, t.is_generated = true) :
    ∀ langs : List String, find_transcript false tl langs =
      Except.error (Exc.NoTranscriptFound ("no transcript found")) := by
  intro langs
  induction langs with
  | nil => rfl
  | cons l rest ih =>
    have hnone : tl.find? (fun t => t.is_generated == false && t.language_code == l) = none := by
      rw [List.find?_eq_none]
      intro t ht
      simp [hall t ht]
    simp only [find_transcript, hnone]
    exact ih

/-- With `prefer=manual`, an all-generated catalogue never yields a pick:
the generated lookup is not even attempted. -/
theorem pick_manual_none (tl : List Track) (hall : ∀ t ∈ tl, t.is_generated = true)
    (langs : List String) : pick_transcript Prefer.manual tl langs = none := by
  simp [pick_transcript, find_manual_none tl hall langs]

/-- Claim C3: with `prefer=any`, when a manually-authored track matches
the requested language the manual lookup wins (even when generated
matches exist); with `prefer=manual` over an all-generated catalogue the
pick is empty, so the handler falls through to the translation fallback
when `allowTranslate` is on and yields the NotFound outcome when it is
off. -/
theorem claim_C3 :
    (∀ (tl : List Track) (l : String) (rest : List String) (tm : Track),
      tl.find? (fun t => t.is_generated == false && t.language_code == l) = some tm →
      pick_transcript Prefer.any tl (l :: rest) = some tm ∧ tm.is_generated = false)
    ∧ (∀ (tl : List Track) (langs : List String),
      (∀ t ∈ tl, t.is_generated = true) → pick_transcript Prefer.manual tl langs = none)
    ∧ (∀ (p : Provider) (req : Request) (m : String) (tl : List Track),
      p.get_transcript req.videoId (parseLangs req.lang) =
        Except.error (Exc.NoTranscriptFound m) →
      p.list_transcripts req.videoId = Except.ok tl →
      (∀ t ∈ tl, t.is_generated = true) →
      req.prefer = Prefer.manual →
      (req.allowTranslate = false →
        api_transcript p req =
          ApiOut.http 404 (detailMsg ("No transcript in requested languages.") none
            req.debug false))
      ∧ (req.allowTranslate = true →
        api_transcript p req =
          (match translate_fallback p tl (parseLangs req.lang) with
           | none =>
             ApiOut.http 404 (detailMsg ("No transcript in requested languages.") none
               req.debug false)
           | some tr => serve_transcript p req (parseLangs req.lang) tr))) := by
  refine ⟨?_, ?_, ?_⟩
  · intro tl l rest tm hfind
    have hf : find_transcript false tl (l :: rest) = Except.ok tm := by
      unfold find_transcript
      rw [hfind]
    refine ⟨by simp [pick_transcript, hf], ?_⟩
    have := List.find?_some hfind
    simp only [Bool.and_eq_true, beq_iff_eq] at this
    exact this.1
  · intro tl langs hall
    exact pick_manual_none tl hall langs
  · intro p req m tl hdir hlist hall hpref
    constructor
    · intro hat
      have hres : resolve_track p req.prefer req.allowTranslate tl (parseLangs req.lang) =
          none := by
        rw [hpref, hat]
        simp [resolve_track, pick_manual_none tl hall (parseLangs req.lang)]
      simp only [api_transcript, hdir, fallback_path, hlist, hres]
    · intro hat
      have hres : resolve_track p req.prefer req.allowTranslate tl (parseLangs req.lang) =
          translate_fallback p tl (parseLangs req.lang) := by
        rw [hpref, hat]
        simp [resolve_track, pick_manual_none tl hall (parseLangs req.lang)]
      simp only [api_transcript, hdir, fallback_path, hlist, hres]

/-- Witness for C3: with both a generated and a manual English track (the
generated one listed first), `prefer=any` picks the manual track. -/
theorem claim_C3_witness :
    pick_transcript Prefer.any [⟨("en"), true⟩, ⟨("en"), false⟩] [("en")] =
      some ⟨("en"), false⟩
    ∧ (Track.mk ("en") false).is_generated = false :=
  claim_C3.1 [⟨("en"), true⟩, ⟨("en"), false⟩] ("en") [] ⟨("en"), false⟩ (by decide)

/-- The head of a filtered list is its first satisfying element. -/
theorem filter_head_of_find? {α : Type} (p : α → Bool) :
    ∀ (l : List α) (b : α), l.find? p = some b → ∃ t, l.filter p = b :: t := by
  intro l
  induction l with
  | nil => intro b h; cases h
  | cons a as ih =>
    intro b h
    cases hp : p a with
    | true =>
      rw [List.find?_cons_of_pos _ hp] at h
      cases h
      exact ⟨as.filter p, by simp [List.filter_cons, hp]⟩
    | false =>
      rw [List.find?_cons_of_neg _ (by simp [hp])] at h
      obtain ⟨t, ht⟩ := ih b h
      exact ⟨t, by simp [List.filter_cons, hp, ht]⟩

/-- Claim C4: the translation-fallback base track is the first
manually-authored track in catalogue order, else the first track of any
kind, translated into the first preferred language; failures of the
optional sub-steps are swallowed (the handler answers NotFound only on
total exhaustion, and serves the resolved track otherwise, never
surfacing a fallback error). -/
theorem claim_C4 :
    (∀ (p : Provider) (tl : List Track) (l0 : String) (rest : List String) (b : Track),
      tl.find? (fun t => !t.is_generated) = some b →
      translate_fallback p tl (l0 :: rest) =
        (match p.translate b l0 with
         | Except.ok t => some t
         | Except.error _ => none))
    ∧ (∀ (p : Provider) (tl : List Track) (l0 : String) (rest : List String) (b : Track),
      tl.filter (fun t => !t.is_generated) = [] →
      tl.head? = some b →
      translate_fallback p tl (l0 :: rest) =
        (match p.translate b l0 with
         | Except.ok t => some t
         | Except.error _ => none))
    ∧ (∀ (p : Provider) (req : Request) (m : String) (tl : List Track),
      p.get_transcript req.videoId (parseLangs req.lang) =
        Except.error (Exc.NoTranscriptFound m) →
      p.list_transcripts req.videoId = Except.ok tl →
      pick_transcript req.prefer tl (parseLangs req.lang) = none →
      req.allowTranslate = true →
      translate_fallback p tl (parseLangs req.lang) = none →
      api_transcript p req =
        ApiOut.http 404 (detailMsg ("No transcript in requested languages.") none
          req.debug false))
    ∧ (∀ (p : Provider) (req : Request) (m : String) (tl : List Track) (tr : Track),
      p.get_transcript req.videoId (parseLangs req.lang) =
        Except.error (Exc.NoTranscriptFound m) →
      p.list_transcripts req.videoId = Except.ok tl →
      resolve_track p req.prefer req.allowTranslate tl (parseLangs req.lang) = some tr →
      api_transcript p req = serve_transcript p req (parseLangs req.lang) tr) := by
  refine ⟨?_, ?_, ?_, ?_⟩
  · intro p tl l0 rest b hfind
    obtain ⟨t, hfil⟩ := filter_head_of_find? _ tl b hfind
    simp only [translate_fallback, hfil]
  · intro p tl l0 rest b hfil hhead
    simp only [translate_fallback, hfil, hhead]
  · intro p req m tl hdir hlist hpick hat htf
    have hres : resolve_track p req.prefer req.allowTranslate tl (parseLangs req.lang) =
        none := by
      simp [resolve_track, hpick, hat, htf]
    simp only [api_transcript, hdir, fallback_path, hlist, hres]
  · intro p req m tl tr hdir hlist hres
    simp only [api_transcript, hdir, fallback_path, hlist, hres]

/-- Witness for C4: with a generated track first in the catalogue, the
base is still the first manual track; the translation failure of this
provider is swallowed into an empty result. -/
theorem claim_C4_witness :
    translate_fallback provKo [⟨("xx"), true⟩, ⟨("m1"), false⟩, ⟨("m2"), false⟩] [("en")] =
      none := by
  have h := claim_C4.1 provKo [⟨("xx"), true⟩, ⟨("m1"), false⟩, ⟨("m2"), false⟩] ("en") []
    ⟨("m1"), false⟩ (by decide)
  rw [h]
  rfl

/-! ## Claims about the diagnostics endpoint and the empty-language edge -/

/-- Claim C9, counterexample: the diagnostics response has no
`providerVersion` field — the version string is published under the key
`yta_version`. -/
theorem claim_C9_counterexample :
    List.lookup ("providerVersion") (api_diag provDiagOk (Except.ok ("1.2.3"))) = none
    ∧ List.lookup ("yta_version") (api_diag provDiagOk (Except.ok ("1.2.3"))) =
        some (JVal.s ("1.2.3"))
    ∧ List.lookup ("ok") (api_diag provDiagOk (Except.ok ("1.2.3"))) =
        some (JVal.b true) :=
  ⟨by decide, by decide, by decide⟩

/-- Claim C9, amended: every diagnostics response carries a boolean `ok`
and the version string under the key `yta_version` (not
`providerVersion`); the endpoint performs exactly one canary fetch
against the fixed video `5MgBikgcWnY` (the response depends on the
provider only through that single oracle point); on success
`sample_items` is the number of fetched cues, on failure the response
carries an `error` string and a `scrapingBlocked` boolean from the
rate-limit heuristic. -/
theorem claim_C9_amended (p : Provider) (v : Except Exc String) :
    (∃ bv : Bool, List.lookup ("ok") (api_diag p v) = some (JVal.b bv))
    ∧ List.lookup ("yta_version") (api_diag p v) = some (JVal.s (verOf v))
    ∧ List.lookup ("providerVersion") (api_diag p v) = none
    ∧ (∀ items : List Cue,
      p.get_transcript ("5MgBikgcWnY") [("en")] = Except.ok items →
      api_diag p v =
        [(("ok"), JVal.b true), (("yta_version"), JVal.s (verOf v)),
         (("sample_items"), JVal.n items.length)])
    ∧ (∀ e : Exc,
      p.get_transcript ("5MgBikgcWnY") [("en")] = Except.error e →
      api_diag p v =
        [(("ok"), JVal.b false), (("yta_version"), JVal.s (verOf v)),
         (("error"), JVal.s (e.clsName ++ (": ") ++ e.msg)),
         (("scrapingBlocked"), JVal.b (check_scraping_block e))])
    ∧ (∀ p2 : Provider,
      p2.get_transcript ("5MgBikgcWnY") [("en")] = p.get_transcript ("5MgBikgcWnY") [("en")] →
      api_diag p2 v = api_diag p v) := by
  refine ⟨?_, ?_, ?_, ?_, ?_, ?_⟩
  · cases h : p.get_transcript ("5MgBikgcWnY") [("en")] with
    | ok items => exact ⟨true, by simp only [api_diag, h]; rfl⟩
    | error e => exact ⟨false, by simp only [api_diag, h]; rfl⟩
  · cases h : p.get_transcript ("5MgBikgcWnY") [("en")] with
    | ok items => simp only [api_diag, h]; rfl
    | error e => simp only [api_diag, h]; rfl
  · cases h : p.get_transcript ("5MgBikgcWnY") [("en")] with
    | ok items => simp only [api_diag, h]; rfl
    | error e => simp only [api_diag, h]; rfl
  · intro items h
    simp only [api_diag, h]
  · intro e h
    simp only [api_diag, h]
  · intro p2 h2
    simp only [api_diag, h2]

/-- Witness for the amended C9: the concrete healthy scenario reports
`ok=true` and one sample item. -/
theorem claim_C9_amended_witness :
    api_diag provDiagOk (Except.ok ("1.2.3")) =
      [(("ok"), JVal.b true), (("yta_version"), JVal.s ("1.2.3")),
       (("sample_items"), JVal.n 1)] :=
  (claim_C9_amended provDiagOk (Except.ok ("1.2.3"))).2.2.2.1 [cueHello] rfl

/-- Claim C10: when the `lang` parameter parses to an empty language
list, the unguarded `langs[0]` makes a JSON-format direct-fetch success
impossible — the IndexError is caught by the outer handler and answered
as HTTP 500 — while the same indexing in the fallback JSON response
escapes the handler and in the translation fallback is swallowed. -/
theorem claim_C10 :
    parseLangs (",") = []
    ∧ parseLangs ("  ") = []
    ∧ (∀ (p : Provider) (req : Request) (items : List Cue),
      parseLangs req.lang = [] →
      req.format = Format.json →
      p.get_transcript req.videoId [] = Except.ok items →
      api_transcript p req =
        ApiOut.http 500 (detailMsg ("Internal server error.")
          (some (Exc.IndexError ("list index out of range"))) req.debug false))
    ∧ (∀ (p : Provider) (req : Request) (tr : Track) (cs : List Cue),
      req.format = Format.json →
      p.fetch tr = Except.ok cs →
      serve_transcript p req [] tr =
        ApiOut.crash (Exc.IndexError ("list index out of range")))
    ∧ (∀ (p : Provider) (tl : List Track), translate_fallback p tl [] = none) := by
  refine ⟨by decide, by decide, ?_, ?_, ?_⟩
  · intro p req items hlangs hfmt hok
    have hho : handle_other (Exc.IndexError ("list index out of range")) req.debug =
        ApiOut.http 500 (detailMsg ("Internal server error.")
          (some (Exc.IndexError ("list index out of range"))) req.debug false) := by
      simp only [handle_other]
      rw [show check_scraping_block (Exc.IndexError ("list index out of range")) = false by
        decide]
      simp
    simp only [api_transcript, hlangs, hok, hfmt, hho]
  · intro p req tr cs hfmt hfetch
    simp only [serve_transcript, hfetch, hfmt]
  · intro p tl
    simp only [translate_fallback]
    cases tl.filter (fun t => !t.is_generated) with
    | nil => cases tl.head? <;> rfl
    | cons b t => rfl

/-- Witness for C10: concrete request with `lang=","` and a succeeding
direct fetch is answered 500. -/
theorem claim_C10_witness :
    api_transcript provAlwaysOk ⟨"VID", ",", Format.json, Prefer.any, true, false⟩ =
      ApiOut.http 500 (detailMsg ("Internal server error.")
        (some (Exc.IndexError ("list index out of range"))) false false) :=
  claim_C10.2.2.1 provAlwaysOk ⟨"VID", ",", Format.json, Prefer.any, true, false⟩
    [cueHello] (by decide) rfl rfl

/-! ## List and character lemmas for the SRT formatter -/

theorem nonws_ne_nl {c : Char} (h : isWs c = false) : c ≠ '\n' := by
  intro he
  subst he
  simp [isWs] at h

theorem stripLead_cons_of_nonws (c : Char) (l : List Char) (h : isWs c = false) :
    stripLead (c :: l) = c :: l := by
  simp [stripLead, List.dropWhile_cons, h]

theorem stripTrail_append_ws (l : List Char) (c : Char) (h : isWs c = true) :
    stripTrail (l ++ [c]) = stripTrail l := by
  simp [stripTrail, List.reverse_append, List.dropWhile_cons, h]

theorem stripTrail_append_nonws (l : List Char) (c : Char) (h : isWs c = false) :
    stripTrail (l ++ [c]) = l ++ [c] := by
  simp [stripTrail, List.reverse_append, List.dropWhile_cons, h]

theorem dropWhile_head_prop (p : Char → Bool) :
    ∀ m : List Char, List.dropWhile p m = [] ∨
      ∃ c t, List.dropWhile p m = c :: t ∧ p c = false := by
  intro m
  induction m with
  | nil => exact Or.inl rfl
  | cons a t ih =>
    cases hp : p a with
    | true => simpa [List.dropWhile_cons, hp] using ih
    | false => exact Or.inr ⟨a, t, by simp [List.dropWhile_cons, hp], hp⟩

theorem stripTrail_last {l : List Char} (h : stripTrail l ≠ []) :
    ∃ l' c, stripTrail l = l' ++ [c] ∧ isWs c = false := by
  rcases dropWhile_head_prop (fun c => isWs c) l.reverse with hd | ⟨c, t, hd, hc⟩
  · exact absurd (by simp [stripTrail, hd]) h
  · exact ⟨t.reverse, c, by simp [stripTrail, hd], hc⟩

theorem mem_pyStrip {c : Char} {l : List Char} (h : c ∈ pyStrip l) : c ∈ l := by
  simp only [pyStrip, stripTrail, stripLead] at h
  rw [List.mem_reverse] at h
  have h1 := (List.dropWhile_sublist (l := (List.dropWhile (fun c => isWs c) l).reverse)
    (p := fun c => isWs c)).mem h
  rw [List.mem_reverse] at h1
  exact (List.dropWhile_sublist (l := l) (p := fun c => isWs c)).mem h1

theorem joinNl_concat : ∀ (L : List (List Char)) (x : List Char), L ≠ [] →
    joinNl (L ++ [x]) = joinNl L ++ '\n' :: x := by
  intro L
  induction L with
  | nil => intro x h; exact absurd rfl h
  | cons a as ih =>
    intro x _
    cases as with
    | nil => rfl
    | cons b bs =>
      have h2 := ih x (by simp)
      show joinNl (a :: ((b :: bs) ++ [x])) = (a ++ '\n' :: joinNl (b :: bs)) ++ '\n' :: x
      have hcons : (b :: bs) ++ [x] = b :: (bs ++ [x]) := rfl
      calc joinNl (a :: ((b :: bs) ++ [x]))
          = a ++ '\n' :: joinNl ((b :: bs) ++ [x]) := by rw [hcons]; rfl
        _ = a ++ '\n' :: (joinNl (b :: bs) ++ '\n' :: x) := by rw [h2]
        _ = (a ++ '\n' :: joinNl (b :: bs)) ++ '\n' :: x := by simp

theorem joinNl_head (x : List Char) (L : List (List Char)) :
    ∃ r, joinNl (x :: L) = x ++ r := by
  cases L with
  | nil => exact ⟨[], by simp [joinNl]⟩
  | cons b bs => exact ⟨'\n' :: joinNl (b :: bs), rfl⟩

theorem splitOnChar_ne_nil (sep : Char) (l : List Char) : splitOnChar sep l ≠ [] := by
  cases l with
  | nil => exact fun h => by cases h
  | cons c t =>
    unfold splitOnChar
    split
    · exact fun h => by cases h
    · split
      · exact fun h => by cases h
      · exact fun h => by cases h

theorem splitOnChar_append_sep (sep : Char) :
    ∀ l, splitOnChar sep (l ++ [sep]) = splitOnChar sep l ++ [[]] := by
  intro l
  induction l with
  | nil => simp [splitOnChar]
  | cons c t ih =>
    show splitOnChar sep (c :: (t ++ [sep])) = splitOnChar sep (c :: t) ++ [[]]
    by_cases h : (c == sep) = true
    · simp [splitOnChar, h, ih]
    · rw [Bool.not_eq_true] at h
      simp only [splitOnChar, h, Bool.false_eq_true, if_false, ih]
      cases hs : splitOnChar sep t with
      | nil => exact absurd hs (splitOnChar_ne_nil sep t)
      | cons h0 r0 => simp

theorem splitOnChar_nosep (sep : Char) : ∀ l, sep ∉ l → splitOnChar sep l = [l] := by
  intro l
  induction l with
  | nil => intro _; rfl
  | cons c t ih =>
    intro h
    rw [List.mem_cons, not_or] at h
    have hc : (c == sep) = false := by
      rw [beq_eq_false_iff_ne]
      exact fun he => h.1 he.symm
    have ht := ih h.2
    simp [splitOnChar, hc, ht]

theorem splitOnChar_append_left (sep : Char) :
    ∀ (l m : List Char) (h0 : List Char) (r : List (List Char)), sep ∉ l →
      splitOnChar sep m = h0 :: r → splitOnChar sep (l ++ m) = (l ++ h0) :: r := by
  intro l
  induction l with
  | nil => intro m h0 r _ hm; simpa using hm
  | cons c t ih =>
    intro m h0 r hns hm
    rw [List.mem_cons, not_or] at hns
    have hc : (c == sep) = false := by
      rw [beq_eq_false_iff_ne]
      exact fun he => hns.1 he.symm
    have ht := ih m h0 r hns.2 hm
    show splitOnChar sep (c :: (t ++ m)) = ((c :: t) ++ h0) :: r
    simp [splitOnChar, hc, ht]

theorem splitOnChar_joinNl : ∀ L : List (List Char), (∀ l ∈ L, '\n' ∉ l) → L ≠ [] →
    splitOnChar '\n' (joinNl L) = L := by
  intro L
  induction L with
  | nil => intro _ h; exact absurd rfl h
  | cons a as ih =>
    intro hfree _
    cases as with
    | nil => exact splitOnChar_nosep '\n' a (hfree a (by simp))
    | cons b bs =>
      have hrec := ih (fun l hl => hfree l (List.mem_cons_of_mem a hl)) (by simp)
      have hm : splitOnChar '\n' ('\n' :: joinNl (b :: bs)) = [] :: (b :: bs) := by
        show (if ('\n' == '\n') = true then [] :: splitOnChar '\n' (joinNl (b :: bs))
          else _) = [] :: (b :: bs)
        rw [if_pos (by decide), hrec]
      have := splitOnChar_append_left '\n' a ('\n' :: joinNl (b :: bs)) [] (b :: bs)
        (hfree a (by simp)) hm
      simpa [joinNl] using this

/-! ## Characters of the rendered number, timing, and text lines -/

theorem digitChar_nonws (d : Nat) : isWs (digitChar d) = false := by
  unfold digitChar
  split <;> rfl

theorem natDigitsAux_all {P : Char → Prop} (hd : ∀ d, P (digitChar d)) :
    ∀ fuel n acc, (∀ c ∈ acc, P c) → ∀ c ∈ natDigitsAux fuel n acc, P c := by
  intro fuel
  induction fuel with
  | zero => intro n acc hacc c hc; exact hacc c hc
  | succ f ih =>
    intro n acc hacc c hc
    cases n with
    | zero => exact hacc c hc
    | succ m =>
      simp only [natDigitsAux] at hc
      refine ih ((m + 1) / 10) _ ?_ c hc
      intro x hx
      rcases List.mem_cons.mp hx with h | h
      · rw [h]; exact hd _
      · exact hacc x h

theorem natDigitsAux_suffix : ∀ fuel n acc, ∃ l, natDigitsAux fuel n acc = l ++ acc := by
  intro fuel
  induction fuel with
  | zero => exact fun n acc => ⟨[], rfl⟩
  | succ f ih =>
    intro n acc
    cases n with
    | zero => exact ⟨[], rfl⟩
    | succ m =>
      obtain ⟨l, hl⟩ := ih ((m + 1) / 10) (digitChar ((m + 1) % 10) :: acc)
      exact ⟨l ++ [digitChar ((m + 1) % 10)], by simp [natDigitsAux, hl]⟩

theorem natRepr_nonws (n : Nat) : ∀ c ∈ (natRepr n).data, isWs c = false := by
  unfold natRepr
  split
  · intro c hc
    simp only [show ("0").data = ['0'] from rfl, List.mem_singleton] at hc
    rw [hc]; rfl
  · intro c hc
    exact natDigitsAux_all (P := fun c => isWs c = false) (fun d => digitChar_nonws d)
      n n [] (by simp) c hc

theorem natRepr_ne_nil (n : Nat) : (natRepr n).data ≠ [] := by
  unfold natRepr
  split
  · exact fun h => by cases h
  · cases n with
    | zero => simp_all
    | succ m =>
      obtain ⟨l, hl⟩ := natDigitsAux_suffix m ((m + 1) / 10) [digitChar ((m + 1) % 10)]
      show natDigitsAux (m + 1) (m + 1) [] ≠ []
      simp [natDigitsAux, hl]

theorem padNat_nonws (w n : Nat) : ∀ c ∈ (padNat w n).data, isWs c = false := by
  intro c hc
  unfold padNat at hc
  rw [String.data_append] at hc
  rcases List.mem_append.mp hc with h | h
  · have : c = '0' := by
      have := List.eq_of_mem_replicate (show c ∈ List.replicate (w - (natRepr n).length) '0'
        from h)
      exact this
    rw [this]; rfl
  · exact natRepr_nonws n c h

theorem padNat_ne_nil (w n : Nat) : (padNat w n).data ≠ [] := by
  unfold padNat
  rw [String.data_append]
  intro h
  exact natRepr_ne_nil n (List.append_eq_nil.mp h).2

theorem padInt_nonws (w : Nat) (z : Int) : ∀ c ∈ (padInt w z).data, isWs c = false := by
  intro c hc
  unfold padInt at hc
  split at hc
  · rw [String.data_append] at hc
    rcases List.mem_append.mp hc with h | h
    · have : c = '-' := by
        simpa [show ("-").data = ['-'] from rfl] using h
      rw [this]; rfl
    · exact padNat_nonws (w - 1) z.natAbs c h
  · exact padNat_nonws w z.toNat c hc

theorem padInt_ne_nil (w : Nat) (z : Int) : (padInt w z).data ≠ [] := by
  unfold padInt
  split
  · rw [String.data_append]
    simp
  · exact padNat_ne_nil w z.toNat

theorem format_ts_nonws (q : PyF) : ∀ c ∈ (format_ts q).data, isWs c = false := by
  intro c hc
  unfold format_ts at hc
  simp only [String.data_append, List.mem_append] at hc
  rcases hc with ((((((h | h) | h) | h) | h) | h) | h)
  · exact padInt_nonws 2 _ c h
  · rw [List.mem_singleton] at h; rw [h]; rfl
  · exact padInt_nonws 2 _ c h
  · rw [List.mem_singleton] at h; rw [h]; rfl
  · exact padInt_nonws 2 _ c h
  · rw [List.mem_singleton] at h; rw [h]; rfl
  · exact padInt_nonws 3 _ c h

theorem format_ts_ne_nil (q : PyF) : (format_ts q).data ≠ [] := by
  unfold format_ts
  simp only [String.data_append]
  intro h
  have := List.append_eq_nil.mp h
  have h2 := List.append_eq_nil.mp this.1
  have h3 := List.append_eq_nil.mp h2.1
  have h4 := List.append_eq_nil.mp h3.1
  have h5 := List.append_eq_nil.mp h4.1
  have h6 := List.append_eq_nil.mp h5.1
  exact padInt_ne_nil 2 _ h6.1

theorem format_ts_last_nonws (q : PyF) :
    ∃ l ch, (format_ts q).data = l ++ [ch] ∧ isWs ch = false := by
  rcases List.eq_nil_or_concat ((format_ts q).data) with h | ⟨l, ch, h⟩
  · exact absurd h (format_ts_ne_nil q)
  · rw [List.concat_eq_append] at h
    exact ⟨l, ch, h, format_ts_nonws q ch (h ▸ List.mem_append_right l (by simp))⟩

theorem tsLine_nl_free (c : Cue) : '\n' ∉ (tsLine c).data := by
  intro h
  unfold tsLine at h
  simp only [String.data_append, List.mem_append] at h
  rcases h with (h | h) | h
  · exact nonws_ne_nl (format_ts_nonws _ '\n' h) rfl
  · simp at h
  · exact nonws_ne_nl (format_ts_nonws _ '\n' h) rfl

theorem tsLine_last_nonws (c : Cue) :
    ∃ l ch, (tsLine c).data = l ++ [ch] ∧ isWs ch = false := by
  obtain ⟨l, ch, hl, hch⟩ := format_ts_last_nonws (pyAdd (c.start.getD (pyOfInt 0))
    (c.duration.getD (pyOfInt 0)))
  refine ⟨(format_ts (c.start.getD (pyOfInt 0))).data ++ (" --> ").data ++ l, ch, ?_, hch⟩
  unfold tsLine
  simp only [String.data_append, hl]
  simp [List.append_assoc]

theorem normText_ne_empty (c : Cue) : normText c ≠ "" := by
  unfold normText
  split
  · decide
  · rename_i hne
    intro h
    apply hne
    have h2 := congrArg String.data h
    simpa using h2

theorem normText_nl_free (c : Cue) : '\n' ∉ (normText c).data := by
  unfold normText
  split
  · decide
  · intro h
    have h2 := mem_pyStrip (l := replacedText c) h
    unfold replacedText at h2
    rcases List.mem_map.mp h2 with ⟨a, _, ha⟩
    by_cases hx : (a == '\n') = true
    · rw [if_pos hx] at ha; cases ha
    · rw [if_neg hx] at ha
      rw [Bool.not_eq_true, beq_eq_false_iff_ne] at hx
      exact hx ha

theorem normText_struct (c : Cue) :
    normText c = " " ∨
      ∃ l ch, (normText c).data = l ++ [ch] ∧ isWs ch = false := by
  unfold normText
  split
  · exact Or.inl rfl
  · right
    rename_i hne
    have hs : stripTrail (stripLead (replacedText c)) ≠ [] := hne
    obtain ⟨l, ch, hl, hch⟩ := stripTrail_last hs
    exact ⟨l, ch, hl, hch⟩

theorem natRepr_nl_free (n : Nat) : '\n' ∉ (natRepr n).data := by
  intro h
  exact nonws_ne_nl (natRepr_nonws n '\n' h) rfl

/-! ## Structure of the SRT line list and the final output -/

theorem srtLinesFrom_length : ∀ (items : List Cue) (i : Nat),
    (srtLinesFrom i items).length = 4 * items.length := by
  intro items
  induction items with
  | nil => intro i; rfl
  | cons d t ih =>
    intro i
    simp only [srtLinesFrom, List.length_cons, ih (i + 1)]
    omega

theorem srtLinesFrom_concat : ∀ (items : List Cue) (i : Nat) (c : Cue),
    srtLinesFrom i (items ++ [c]) =
      srtLinesFrom i items ++ [natRepr (i + items.length), tsLine c, normText c, ("")] := by
  intro items
  induction items with
  | nil => intro i c; simp [srtLinesFrom]
  | cons d t ih =>
    intro i c
    show srtLinesFrom i (d :: (t ++ [c])) = _
    simp only [srtLinesFrom, ih (i + 1), List.cons_append, List.length_cons]
    rw [show i + 1 + t.length = i + (t.length + 1) from by omega]

theorem srtLinesFrom_nl_free : ∀ (items : List Cue) (i : Nat),
    ∀ l ∈ srtLinesFrom i items, '\n' ∉ l.data := by
  intro items
  induction items with
  | nil => intro i l hl; cases hl
  | cons d t ih =>
    intro i l hl
    rcases List.mem_cons.mp hl with h | hl
    · rw [h]; exact natRepr_nl_free i
    rcases List.mem_cons.mp hl with h | hl
    · rw [h]; exact tsLine_nl_free d
    rcases List.mem_cons.mp hl with h | hl
    · rw [h]; exact normText_nl_free d
    rcases List.mem_cons.mp hl with h | hl
    · rw [h]; decide
    · exact ih (i + 1) l hl

theorem srtLinesFrom_get : ∀ (items : List Cue) (i k : Nat) (c : Cue),
    items[k]? = some c →
    (srtLinesFrom i items)[4 * k]? = some (natRepr (i + k))
    ∧ (srtLinesFrom i items)[4 * k + 1]? = some (tsLine c)
    ∧ (srtLinesFrom i items)[4 * k + 2]? = some (normText c) := by
  intro items
  induction items with
  | nil => intro i k c h; cases h
  | cons d t ih =>
    intro i k c h
    cases k with
    | zero =>
      have hd : d = c := by simpa using h
      subst hd
      refine ⟨?_, ?_, ?_⟩ <;> simp [srtLinesFrom]
    | succ k' =>
      have h' : t[k']? = some c := by simpa using h
      obtain ⟨h1, h2, h3⟩ := ih (i + 1) k' c h'
      refine ⟨?_, ?_, ?_⟩
      · rw [show 4 * (k' + 1) = 4 * k' + 1 + 1 + 1 + 1 from by omega]
        simp only [srtLinesFrom, List.getElem?_cons_succ]
        rw [h1, show i + 1 + k' = i + (k' + 1) from by omega]
      · rw [show 4 * (k' + 1) + 1 = 4 * k' + 1 + 1 + 1 + 1 + 1 from by omega]
        simp only [srtLinesFrom, List.getElem?_cons_succ]
        exact h2
      · rw [show 4 * (k' + 1) + 2 = 4 * k' + 2 + 1 + 1 + 1 + 1 from by omega]
        simp only [srtLinesFrom, List.getElem?_cons_succ]
        exact h3

theorem srtBody_nl_free (I : List Cue) (c : Cue) :
    ∀ l ∈ srtBody I c, '\n' ∉ l.data := by
  intro l hl
  unfold srtBody at hl
  rcases List.mem_append.mp hl with h | h
  · exact srtLinesFrom_nl_free I 1 l h
  · split at h <;> simp only [List.mem_cons, List.mem_singleton] at h
    · rcases h with h | h | h
      · rw [h]; exact natRepr_nl_free _
      · rw [h]; exact tsLine_nl_free c
      · cases h
    · rcases h with h | h | h | h
      · rw [h]; exact natRepr_nl_free _
      · rw [h]; exact tsLine_nl_free c
      · rw [h]; exact normText_nl_free c
      · cases h

theorem srtBody_ne_nil (I : List Cue) (c : Cue) : srtBody I c ≠ [] := by
  unfold srtBody
  split <;> simp

/-- The last-line decomposition used by the trailing-strip argument:
the joined body always ends in a non-whitespace character. -/
theorem joinNl_srtBody_last (I : List Cue) (c : Cue) :
    ∃ z ch, joinNl ((srtBody I c).map String.data) = z ++ [ch] ∧ isWs ch = false := by
  unfold srtBody
  split
  · -- body ends with the timing line
    obtain ⟨l, ch, hl, hch⟩ := tsLine_last_nonws c
    have hcat : srtLinesFrom 1 I ++ [natRepr (1 + I.length), tsLine c] =
        (srtLinesFrom 1 I ++ [natRepr (1 + I.length)]) ++ [tsLine c] := by simp
    rw [hcat, List.map_append,
      show List.map String.data [tsLine c] = [(tsLine c).data] from rfl]
    rw [joinNl_concat _ _ (by simp)]
    refine ⟨joinNl ((srtLinesFrom 1 I ++ [natRepr (1 + I.length)]).map String.data) ++
      '\n' :: l, ch, ?_, hch⟩
    rw [hl]
    simp
  · -- body ends with the (non-space) text line
    rename_i hsp
    rcases normText_struct c with h | ⟨l, ch, hl, hch⟩
    · exact absurd h hsp
    have hcat : srtLinesFrom 1 I ++ [natRepr (1 + I.length), tsLine c, normText c] =
        (srtLinesFrom 1 I ++ [natRepr (1 + I.length), tsLine c]) ++ [normText c] := by simp
    rw [hcat, List.map_append,
      show List.map String.data [normText c] = [(normText c).data] from rfl]
    rw [joinNl_concat _ _ (by simp)]
    refine ⟨joinNl ((srtLinesFrom 1 I ++ [natRepr (1 + I.length), tsLine c]).map String.data) ++
      '\n' :: l, ch, ?_, hch⟩
    rw [hl]
    simp

/-- Master structure theorem for a nonempty cue list: the SRT output is
the joined body (`srtBody`) followed by exactly one line break, and that
body carries no trailing whitespace. -/
theorem to_srt_structure (I : List Cue) (c : Cue) :
    (to_srt (I ++ [c])).data = joinNl ((srtBody I c).map String.data) ++ ['\n']
    ∧ stripTrail (joinNl ((srtBody I c).map String.data)) =
      joinNl ((srtBody I c).map String.data) := by
  obtain ⟨z, ch, hz, hch⟩ := joinNl_srtBody_last I c
  have hstripT : stripTrail (joinNl ((srtBody I c).map String.data)) =
      joinNl ((srtBody I c).map String.data) := by
    rw [hz]
    exact stripTrail_append_nonws z ch hch
  refine ⟨?_, hstripT⟩
  have hlines : srtLines (I ++ [c]) =
      srtLinesFrom 1 I ++ [natRepr (1 + I.length), tsLine c, normText c, ("")] :=
    srtLinesFrom_concat I 1 c
  show pyStrip (joinNl ((srtLines (I ++ [c])).map String.data)) ++ ['\n'] = _
  have hhead : ∃ r, joinNl ((srtLines (I ++ [c])).map String.data) = '1' :: r := by
    cases hI : I ++ [c] with
    | nil => exact absurd hI (by simp)
    | cons d t =>
      have hmk : (srtLines (d :: t)).map String.data = (natRepr 1).data ::
          ((tsLine d :: normText d :: ("") :: srtLinesFrom 2 t).map String.data) := rfl
      rw [hmk]
      obtain ⟨r, hr⟩ := joinNl_head ((natRepr 1).data)
        ((tsLine d :: normText d :: ("") :: srtLinesFrom 2 t).map String.data)
      rw [hr, show (natRepr 1).data = ['1'] from by decide]
      exact ⟨r, rfl⟩
  obtain ⟨r, hr⟩ := hhead
  have hps : pyStrip (joinNl ((srtLines (I ++ [c])).map String.data)) =
      stripTrail (joinNl ((srtLines (I ++ [c])).map String.data)) := by
    unfold pyStrip
    rw [hr, stripLead_cons_of_nonws '1' r (by decide)]
  rw [hps, hlines]
  have hsuff : stripTrail (joinNl ((srtLinesFrom 1 I ++
      [natRepr (1 + I.length), tsLine c, normText c, ("")]).map String.data)) =
      joinNl ((srtBody I c).map String.data) := by
    have e1 : srtLinesFrom 1 I ++ [natRepr (1 + I.length), tsLine c, normText c, ("")] =
        (srtLinesFrom 1 I ++ [natRepr (1 + I.length), tsLine c, normText c]) ++ [("")] := by
      simp
    have e2 : joinNl ((srtLinesFrom 1 I ++
        [natRepr (1 + I.length), tsLine c, normText c, ("")]).map String.data) =
        joinNl ((srtLinesFrom 1 I ++
          [natRepr (1 + I.length), tsLine c, normText c]).map String.data) ++ ['\n'] := by
      rw [e1, List.map_append, show List.map String.data [("")] = [([] : List Char)] from rfl,
        joinNl_concat _ _ (by simp)]
    rw [e2, stripTrail_append_ws _ '\n' (by decide)]
    by_cases hsp : normText c = " "
    · have e3 : srtLinesFrom 1 I ++ [natRepr (1 + I.length), tsLine c, normText c] =
          (srtLinesFrom 1 I ++ [natRepr (1 + I.length), tsLine c]) ++ [normText c] := by
        simp
      have e4 : joinNl ((srtLinesFrom 1 I ++
          [natRepr (1 + I.length), tsLine c, normText c]).map String.data) =
          joinNl ((srtLinesFrom 1 I ++
            [natRepr (1 + I.length), tsLine c]).map String.data) ++ '\n' :: (normText c).data := by
        rw [e3, List.map_append,
          show List.map String.data [normText c] = [(normText c).data] from rfl,
          joinNl_concat _ _ (by simp)]
      have hd : (normText c).data = [' '] := by rw [hsp]
      have hbody : srtBody I c = srtLinesFrom 1 I ++ [natRepr (1 + I.length), tsLine c] := by
        unfold srtBody
        rw [if_pos hsp]
      rw [e4, hd]
      have e5 : joinNl ((srtLinesFrom 1 I ++
          [natRepr (1 + I.length), tsLine c]).map String.data) ++ '\n' :: [' '] =
          (joinNl ((srtLinesFrom 1 I ++
            [natRepr (1 + I.length), tsLine c]).map String.data) ++ ['\n']) ++ [' '] := by
        simp
      rw [e5, stripTrail_append_ws _ ' ' (by decide), stripTrail_append_ws _ '\n' (by decide)]
      rw [← hbody] at *
      exact hstripT
    · have hbody : srtBody I c =
          srtLinesFrom 1 I ++ [natRepr (1 + I.length), tsLine c, normText c] := by
        unfold srtBody
        rw [if_neg hsp]
      rw [← hbody]
      exact hstripT
  rw [hsuff]

/-- The lines of the SRT output (split on the line break) are exactly
the body lines plus the empty tail produced by the final line break. -/
theorem to_srt_lines (I : List Cue) (c : Cue) :
    splitOnChar '\n' ((to_srt (I ++ [c])).data) =
      (srtBody I c).map String.data ++ [[]] := by
  rw [(to_srt_structure I c).1, splitOnChar_append_sep,
    splitOnChar_joinNl ((srtBody I c).map String.data) ?free ?ne]
  case free =>
    intro l hl
    rcases List.mem_map.mp hl with ⟨s, hs, hd⟩
    rw [← hd]
    exact srtBody_nl_free I c s hs
  case ne =>
    intro h
    exact srtBody_ne_nil I c (List.map_eq_nil_iff.mp h)

theorem srtBody_length (I : List Cue) (c : Cue) :
    (srtBody I c).length = 4 * I.length + (if normText c = " " then 2 else 3) := by
  unfold srtBody
  split <;> simp [srtLinesFrom_length I 1]

theorem srtBody_get_num (I : List Cue) (c : Cue) (k : Nat) (hk : k < I.length + 1) :
    ((srtBody I c).map String.data ++ [[]])[4 * k]? =
      some ((natRepr (k + 1)).data) := by
  have hlen : 4 * k < ((srtBody I c).map String.data).length := by
    rw [List.length_map, srtBody_length]
    split <;> omega
  rw [List.getElem?_append_left hlen]
  rcases Nat.lt_or_ge k I.length with hlt | hge
  · have hp : 4 * k < ((srtLinesFrom 1 I).map String.data).length := by
      rw [List.length_map, srtLinesFrom_length]
      omega
    unfold srtBody
    rw [List.map_append, List.getElem?_append_left hp, List.getElem?_map]
    rcases hg : I[k]? with _ | cu
    · rw [List.getElem?_eq_none_iff] at hg
      omega
    · obtain ⟨h1, _, _⟩ := srtLinesFrom_get I 1 k cu hg
      rw [h1, show 1 + k = k + 1 from by omega]
      rfl
  · have hke : k = I.length := by omega
    subst hke
    unfold srtBody
    rw [List.map_append]
    have hplen : ((srtLinesFrom 1 I).map String.data).length = 4 * I.length := by
      rw [List.length_map, srtLinesFrom_length]
    rw [List.getElem?_append_right (by omega :
      ((srtLinesFrom 1 I).map String.data).length ≤ 4 * I.length)]
    rw [hplen, Nat.sub_self]
    split <;> simp [show 1 + I.length = I.length + 1 from by omega]

theorem srtBody_get_text (I : List Cue) (c : Cue) (k : Nat) (cu : Cue)
    (hck : (I ++ [c])[k]? = some cu)
    (hsurv : k + 1 < I.length + 1 ∨ normText cu ≠ " ") :
    ((srtBody I c).map String.data ++ [[]])[4 * k + 2]? =
      some ((normText cu).data) := by
  rcases Nat.lt_or_ge k I.length with hlt | hge
  · have hcu : I[k]? = some cu := by
      rw [List.getElem?_append_left hlt] at hck
      exact hck
    have hlen : 4 * k + 2 < ((srtBody I c).map String.data).length := by
      rw [List.length_map, srtBody_length]
      split <;> omega
    rw [List.getElem?_append_left hlen]
    have hp : 4 * k + 2 < ((srtLinesFrom 1 I).map String.data).length := by
      rw [List.length_map, srtLinesFrom_length]
      omega
    unfold srtBody
    rw [List.map_append, List.getElem?_append_left hp, List.getElem?_map]
    obtain ⟨_, _, h3⟩ := srtLinesFrom_get I 1 k cu hcu
    rw [h3]
    rfl
  · have hkl : k < I.length + 1 := by
      rcases hg : (I ++ [c])[k]? with _ | x
      · rw [hg] at hck; cases hck
      · have := List.getElem?_eq_some_iff.mp hg  -- hmm may not exist; fallback below
        rcases this with ⟨hlen2, _⟩
        simpa using hlen2
    have hke : k = I.length := by omega
    subst hke
    have hcuc : cu = c := by
      rw [List.getElem?_append_right (le_refl I.length)] at hck
      rw [Nat.sub_self] at hck
      simpa using hck.symm
    subst hcuc
    have hsp : normText cu ≠ " " := by
      rcases hsurv with h | h
      · omega
      · exact h
    have hlen : 4 * I.length + 2 < ((srtBody I cu).map String.data).length := by
      rw [List.length_map, srtBody_length, if_neg hsp]
      omega
    rw [List.getElem?_append_left hlen]
    unfold srtBody
    rw [if_neg hsp, List.map_append]
    have hplen : ((srtLinesFrom 1 I).map String.data).length = 4 * I.length := by
      rw [List.length_map, srtLinesFrom_length]
    rw [List.getElem?_append_right (by omega :
      ((srtLinesFrom 1 I).map String.data).length ≤ 4 * I.length + 2)]
    rw [hplen, show 4 * I.length + 2 - 4 * I.length = 2 from by omega]
    rfl

/-- Claim C6: the SRT output always ends with exactly one trailing line
break and no other run of blank lines at the end (the pre-break body
carries no trailing whitespace); the empty cue list yields just the
terminating line break; and the sequence-number lines are exactly
`1..N` in input order. -/
theorem claim_C6 :
    to_srt [] = "\n"
    ∧ (∀ items : List Cue, ∃ l : List Char,
        (to_srt items).data = l ++ ['\n'] ∧ stripTrail l = l)
    ∧ (∀ (items : List Cue) (k : Nat), k < items.length →
        (splitOnChar '\n' ((to_srt items).data))[4 * k]? =
          some ((natRepr (k + 1)).data)) := by
  refine ⟨by decide, ?_, ?_⟩
  · intro items
    rcases List.eq_nil_or_concat items with h | ⟨I, c, h⟩
    · subst h
      exact ⟨[], by decide, rfl⟩
    · rw [List.concat_eq_append] at h
      subst h
      obtain ⟨h1, h2⟩ := to_srt_structure I c
      exact ⟨_, h1, h2⟩
  · intro items k hk
    rcases List.eq_nil_or_concat items with h | ⟨I, c, h⟩
    · subst h; simp at hk
    · rw [List.concat_eq_append] at h
      subst h
      rw [to_srt_lines I c]
      have hk' : k < I.length + 1 := by simpa using hk
      exact srtBody_get_num I c k hk'

/-- Witness for C6 on a three-cue list: the third block's sequence line
is the digit 3. -/
theorem claim_C6_witness :
    (2 < ([cueHello, cueHello, cueHello] : List Cue).length)
    ∧ (splitOnChar '\n' ((to_srt [cueHello, cueHello, cueHello]).data))[4 * 2]? =
        some ((natRepr 3).data) :=
  ⟨by decide, claim_C6.2.2 [cueHello, cueHello, cueHello] 2 (by decide)⟩

/-- Claim C7, counterexample: a cue with empty text that is the LAST cue
does not render as a single-space line — the final trim removes that
line entirely, so no line of the output is the single space. -/
theorem claim_C7_counterexample :
    to_srt [⟨some (""), some ⟨0, 1⟩, some ⟨1, 1⟩⟩] =
      "1\n00:00:00,000 --> 00:00:01,000\n"
    ∧ ((" ").data ∉
        splitOnChar '\n' ((to_srt [⟨some (""), some ⟨0, 1⟩, some ⟨1, 1⟩⟩]).data)) :=
  ⟨by decide, by decide⟩

/-- Claim C7, amended: cue text is rendered with internal newlines
replaced by spaces and trimmed; a cue whose text normalises to empty
renders as a single-space line (never an empty line) — except that when
such a cue is the last cue of the input the final trim removes its
single-space text line entirely, so that line is absent from the
output. -/
theorem claim_C7_amended :
    (∀ c : Cue, normText c ≠ "")
    ∧ (∀ c : Cue, '\n' ∉ (normText c).data)
    ∧ (∀ (items : List Cue) (k : Nat) (cu : Cue), items[k]? = some cu →
        (k + 1 < items.length ∨ normText cu ≠ " ") →
        (splitOnChar '\n' ((to_srt items).data))[4 * k + 2]? =
          some ((normText cu).data))
    ∧ to_srt [⟨some ("line1\nline2"), some ⟨0, 1⟩, some ⟨1, 1⟩⟩] =
        "1\n00:00:00,000 --> 00:00:01,000\nline1 line2\n"
    ∧ to_srt [⟨some (""), some ⟨0, 1⟩, some ⟨1, 1⟩⟩,
        ⟨some ("x"), some ⟨1, 1⟩, some ⟨1, 1⟩⟩] =
        "1\n00:00:00,000 --> 00:00:01,000\n \n\n2\n00:00:01,000 --> 00:00:02,000\nx\n"
    ∧ to_srt [⟨some (""), some ⟨0, 1⟩, some ⟨1, 1⟩⟩] =
        "1\n00:00:00,000 --> 00:00:01,000\n" := by
  refine ⟨normText_ne_empty, normText_nl_free, ?_, by decide, by decide, by decide⟩
  intro items k cu hck hsurv
  rcases List.eq_nil_or_concat items with h | ⟨I, c, h⟩
  · subst h; cases hck
  · rw [List.concat_eq_append] at h
    subst h
    rw [to_srt_lines I c]
    refine srtBody_get_text I c k cu hck ?_
    rcases hsurv with h | h
    · exact Or.inl (by simpa using h)
    · exact Or.inr h

/-- Witness for the amended C7: in a two-cue list whose first cue has
empty text, the first text line of the output is the single space. -/
theorem claim_C7_amended_witness :
    (splitOnChar '\n' ((to_srt [⟨some (""), some ⟨0, 1⟩, some ⟨1, 1⟩⟩,
      ⟨some ("x"), some ⟨1, 1⟩, some ⟨1, 1⟩⟩]).data))[4 * 0 + 2]? =
      some ([' ']) :=
  claim_C7_amended.2.2.1
    [⟨some (""), some ⟨0, 1⟩, some ⟨1, 1⟩⟩, ⟨some ("x"), some ⟨1, 1⟩, some ⟨1, 1⟩⟩]
    0 ⟨some (""), some ⟨0, 1⟩, some ⟨1, 1⟩⟩ (by decide) (Or.inl (by decide))

/-! ## The timestamp components as mathematical floors -/

theorem val_floor (q : PyF) (_hd : 0 < q.den) : Int.fdiv q.num q.den = ⌊q.val⌋ := by
  unfold PyF.val
  rw [Rat.floor_intCast_div_natCast q.num q.den]
  exact Int.fdiv_eq_ediv q.num (Int.natCast_nonneg q.den)

theorem pyFloorDiv_eq (q : PyF) (n : Nat) (_hd : 0 < q.den) (_hn : 0 < n) :
    pyFloorDiv q n = ⌊q.val / (n : ℚ)⌋ := by
  have h1 : pyFloorDiv q n = ⌊((q.num : ℚ) / ((n * q.den : ℕ) : ℚ))⌋ := by
    unfold pyFloorDiv
    rw [Rat.floor_intCast_div_natCast q.num (n * q.den)]
    exact Int.fdiv_eq_ediv q.num (Int.natCast_nonneg _)
  rw [h1]
  congr 1
  unfold PyF.val
  rw [div_div]
  push_cast
  ring

theorem pyMod_val (q : PyF) (n : Nat) (hd : 0 < q.den) (hn : 0 < n) :
    (pyMod q n).val = q.val - (n : ℚ) * (⌊q.val / (n : ℚ)⌋ : ℤ) := by
  have hden : ((q.den : ℚ)) ≠ 0 := ne_of_gt (by exact_mod_cast hd)
  rw [← pyFloorDiv_eq q n hd hn]
  show ((q.num - (n * q.den : ℤ) * pyFloorDiv q n : ℤ) : ℚ) / ((q.den : ℕ) : ℚ) = _
  unfold PyF.val
  push_cast
  field_simp
  ring

theorem pyTrunc_eq_floor (q : PyF) (hnn : 0 ≤ q.num) : pyTrunc q = ⌊q.val⌋ := by
  unfold pyTrunc PyF.val
  rw [Int.tdiv_eq_ediv hnn (Int.natCast_nonneg q.den)]
  rw [Rat.floor_intCast_div_natCast]

/-- Floor of a rational divided by a positive natural equals the integer
division of its floor. -/
theorem floor_div_pos_nat (x : ℚ) (n : Nat) (hn : 0 < n) :
    ⌊x / (n : ℚ)⌋ = ⌊x⌋ / (n : ℤ) := by
  have hq : (0 : ℚ) < (n : ℚ) := by exact_mod_cast hn
  have hz : (0 : ℤ) < (n : ℤ) := by exact_mod_cast hn
  rw [Int.floor_eq_iff]
  constructor
  · rw [le_div_iff₀ hq]
    have h1 : (n : ℤ) * (⌊x⌋ / (n : ℤ)) ≤ ⌊x⌋ := by
      have hmod := Int.emod_nonneg ⌊x⌋ (ne_of_gt hz)
      have hsum := Int.ediv_add_emod ⌊x⌋ (n : ℤ)
      omega
    calc ((⌊x⌋ / (n : ℤ) : ℤ) : ℚ) * (n : ℚ)
        = (((n : ℤ) * (⌊x⌋ / (n : ℤ)) : ℤ) : ℚ) := by push_cast; ring
      _ ≤ ((⌊x⌋ : ℤ) : ℚ) := by exact_mod_cast h1
      _ ≤ x := Int.floor_le x
  · rw [div_lt_iff₀ hq]
    have h2 : ⌊x⌋ + 1 ≤ (n : ℤ) * (⌊x⌋ / (n : ℤ)) + n := by
      have hmod := Int.emod_lt_of_pos ⌊x⌋ hz
      have hsum := Int.ediv_add_emod ⌊x⌋ (n : ℤ)
      omega
    calc x < (⌊x⌋ : ℚ) + 1 := Int.lt_floor_add_one x
      _ = (((⌊x⌋ + 1 : ℤ)) : ℚ) := by push_cast; ring
      _ ≤ (((n : ℤ) * (⌊x⌋ / (n : ℤ)) + n : ℤ) : ℚ) := by exact_mod_cast h2
      _ = ((⌊x⌋ / (n : ℤ) : ℤ) : ℚ) * n + n := by push_cast; ring
      _ = ((⌊x⌋ / (n : ℤ) : ℤ) + 1 : ℚ) * n := by ring

theorem hour_component (q : PyF) (hd : 0 < q.den) :
    pyFloorDiv q 3600 = ⌊q.val / 3600⌋ := by
  rw [pyFloorDiv_eq q 3600 hd (by norm_num)]
  norm_num

theorem minute_component (q : PyF) (hd : 0 < q.den) :
    pyFloorDiv (pyMod q 3600) 60 = ⌊q.val / 60⌋ % 60 := by
  have hmd : 0 < (pyMod q 3600).den := hd
  rw [pyFloorDiv_eq (pyMod q 3600) 60 hmd (by norm_num)]
  rw [pyMod_val q 3600 hd (by norm_num)]
  push_cast
  have hsplit : (q.val - (3600 : ℚ) * (⌊q.val / (3600 : ℚ)⌋ : ℤ)) / (60 : ℚ) =
      q.val / 60 - ((60 * ⌊q.val / (3600 : ℚ)⌋ : ℤ) : ℚ) := by
    push_cast
    ring
  rw [hsplit, Int.floor_sub_int]
  have h3600 : ⌊q.val / (3600 : ℚ)⌋ = ⌊q.val / 60⌋ / (60 : ℤ) := by
    have hdd : q.val / (3600 : ℚ) = (q.val / 60) / ((60 : ℕ) : ℚ) := by
      rw [div_div]
      norm_num
    rw [hdd, floor_div_pos_nat (q.val / 60) 60 (by norm_num)]
    norm_num
  rw [h3600, Int.emod_def]

theorem second_component (q : PyF) (hd : 0 < q.den) :
    pyTrunc (pyMod q 60) = ⌊q.val⌋ % 60 := by
  have hnum : 0 ≤ (pyMod q 60).num := by
    show 0 ≤ q.num - (60 * q.den : ℤ) * pyFloorDiv q 60
    have hpos : (0 : ℤ) < (60 * q.den : ℤ) := by positivity
    have h0 := Int.fmod_nonneg' q.num hpos
    rw [Int.fmod_def] at h0
    unfold pyFloorDiv
    push_cast at h0 ⊢
    omega
  rw [pyTrunc_eq_floor (pyMod q 60) hnum]
  rw [pyMod_val q 60 hd (by norm_num)]
  push_cast
  have hfl : q.val - ((60 : ℚ)) * (⌊q.val / (60 : ℚ)⌋ : ℤ) =
      q.val - ((60 * ⌊q.val / (60 : ℚ)⌋ : ℤ) : ℚ) := by
    push_cast
    ring
  rw [hfl, Int.floor_sub_int]
  have h60 : ⌊q.val / (60 : ℚ)⌋ = ⌊q.val⌋ / (60 : ℤ) := by
    have h := floor_div_pos_nat q.val 60 (by norm_num)
    norm_num at h
    exact h
  rw [h60, Int.emod_def]

/-- Python `round` (half to even) is within one half of its argument and
lands on the floor or the floor plus one. -/
theorem pyRound_spec (r : PyF) (hd : 0 < r.den) :
    |((pyRound r : ℤ) : ℚ) - r.val| ≤ 1 / 2
    ∧ ⌊r.val⌋ ≤ pyRound r ∧ pyRound r ≤ ⌊r.val⌋ + 1 := by
  have hdq : (0 : ℚ) < (r.den : ℚ) := by exact_mod_cast hd
  have hdz : (0 : ℤ) < (r.den : ℤ) := by exact_mod_cast hd
  have hf : Int.fdiv r.num r.den = ⌊r.val⌋ := val_floor r hd
  have hrem0 : 0 ≤ r.num - (r.den : ℤ) * ⌊r.val⌋ := by
    have h0 := Int.fmod_nonneg' r.num hdz
    rw [Int.fmod_def, hf] at h0
    exact h0
  have hrem1 : r.num - (r.den : ℤ) * ⌊r.val⌋ < (r.den : ℤ) := by
    have h1 := Int.fmod_lt_of_pos r.num hdz
    rw [Int.fmod_def, hf] at h1
    exact h1
  have hfrac : r.val - (⌊r.val⌋ : ℚ) =
      ((r.num - (r.den : ℤ) * ⌊r.val⌋ : ℤ) : ℚ) / (r.den : ℚ) := by
    unfold PyF.val
    push_cast
    field_simp
  have hv0 : (⌊r.val⌋ : ℚ) ≤ r.val := Int.floor_le r.val
  have hv1 : r.val < (⌊r.val⌋ : ℚ) + 1 := Int.lt_floor_add_one r.val
  unfold pyRound
  rw [hf]
  rcases lt_trichotomy (2 * (r.num - (r.den : ℤ) * ⌊r.val⌋)) (r.den : ℤ) with hlt | heq | hgt
  · rw [if_pos hlt]
    refine ⟨?_, le_refl _, by omega⟩
    rw [abs_sub_comm, abs_of_nonneg (by linarith)]
    rw [hfrac, div_le_iff₀ hdq]
    have hc : ((2 * (r.num - (r.den : ℤ) * ⌊r.val⌋) : ℤ) : ℚ) < ((r.den : ℤ) : ℚ) := by
      exact_mod_cast hlt
    push_cast at hc ⊢
    linarith
  · have hhalf : r.val - (⌊r.val⌋ : ℚ) = 1 / 2 := by
      rw [hfrac, div_eq_iff (ne_of_gt hdq)]
      have hc : ((2 * (r.num - (r.den : ℤ) * ⌊r.val⌋) : ℤ) : ℚ) = ((r.den : ℤ) : ℚ) := by
        exact_mod_cast heq
      push_cast at hc ⊢
      linarith
    rw [if_neg (by omega), if_neg (by omega)]
    split
    · refine ⟨?_, le_refl _, by omega⟩
      rw [abs_sub_comm, abs_of_nonneg (by linarith)]
      linarith
    · refine ⟨?_, by omega, le_refl _⟩
      rw [abs_of_nonneg (by push_cast; linarith)]
      push_cast
      linarith
  · rw [if_neg (by omega), if_pos hgt]
    refine ⟨?_, by omega, le_refl _⟩
    have hge : (1 : ℚ) / 2 ≤ r.val - (⌊r.val⌋ : ℚ) := by
      rw [hfrac, le_div_iff₀ hdq]
      have hc : ((r.den : ℤ) : ℚ) < ((2 * (r.num - (r.den : ℤ) * ⌊r.val⌋) : ℤ) : ℚ) := by
        exact_mod_cast hgt
      push_cast at hc ⊢
      linarith
    rw [abs_of_nonneg (by push_cast; linarith)]
    push_cast
    linarith

/-- The milliseconds value: within half a millisecond of the fractional
remainder times 1000, and between 0 and 1000 inclusive. -/
theorem msOf_spec (q : PyF) (hd : 0 < q.den) (hnn : 0 ≤ q.num) :
    |((msOf q : ℤ) : ℚ) - (q.val - (⌊q.val⌋ : ℚ)) * 1000| ≤ 1 / 2
    ∧ 0 ≤ msOf q ∧ msOf q ≤ 1000 := by
  have hT : pyTrunc q = ⌊q.val⌋ := pyTrunc_eq_floor q hnn
  set r := pyMulNat (pySub q (pyOfInt (pyTrunc q))) 1000 with hr
  have hrd : 0 < r.den := by
    show 0 < q.den * 1
    omega
  have hdq : ((q.den : ℚ)) ≠ 0 := ne_of_gt (by exact_mod_cast hd)
  have hrval : r.val = (q.val - (⌊q.val⌋ : ℚ)) * 1000 := by
    rw [hr]
    show (((q.num * 1 - pyTrunc q * q.den) * 1000 : ℤ) : ℚ) / ((q.den * 1 : ℕ) : ℚ) = _
    rw [hT]
    unfold PyF.val
    push_cast
    field_simp
    ring
  obtain ⟨habs, hlo, hhi⟩ := pyRound_spec r hrd
  have hms : msOf q = pyRound r := by
    rw [hr]
    rfl
  have hfr0 : (0 : ℚ) ≤ q.val - (⌊q.val⌋ : ℚ) := sub_nonneg.mpr (Int.floor_le q.val)
  have hfr1 : q.val - (⌊q.val⌋ : ℚ) < 1 := by
    have := Int.lt_floor_add_one q.val
    linarith
  have hrv0 : (0 : ℚ) ≤ r.val := by
    rw [hrval]
    linarith
  have hrv1 : r.val < 1000 := by
    rw [hrval]
    linarith
  have hfl0 : 0 ≤ ⌊r.val⌋ := Int.floor_nonneg.mpr hrv0
  have hfl1 : ⌊r.val⌋ < 1000 := Int.floor_lt.mpr (by exact_mod_cast hrv1)
  refine ⟨?_, by omega, by omega⟩
  rw [hms, ← hrval]
  exact habs

/-- Claim C5, counterexample: the float just below 2 (exactly
`1 + 4095/4096`, representable) rounds up to a full second of
milliseconds, so the milliseconds field is rendered as the four digits
`1000`, not exactly three digits. -/
theorem claim_C5_counterexample :
    format_ts ⟨8191, 4096⟩ = "00:00:01,1000"
    ∧ (format_ts ⟨8191, 4096⟩).length ≠ 12 :=
  ⟨by decide, by decide⟩

/-- Claim C5, amended: for nonnegative time values the timing component
is `HH:MM:SS,mmm` with hours, minutes and seconds the floored integer
components (zero-padded to a minimum of two digits) and milliseconds the
fractional remainder rounded to the nearest millisecond (half to even),
zero-padded to a MINIMUM of three digits: the value lies in `[0, 1000]`,
and when the remainder rounds up to `1000` the field has four digits.
The concrete example of the claim holds. -/
theorem claim_C5_amended :
    (∀ q : PyF, 0 < q.den → 0 ≤ q.num →
      format_ts q =
        padInt 2 ⌊q.val / 3600⌋ ++ (":") ++ padInt 2 (⌊q.val / 60⌋ % 60) ++ (":")
          ++ padInt 2 (⌊q.val⌋ % 60) ++ (",") ++ padInt 3 (msOf q)
      ∧ |((msOf q : ℤ) : ℚ) - (q.val - (⌊q.val⌋ : ℚ)) * 1000| ≤ 1 / 2
      ∧ 0 ≤ msOf q ∧ msOf q ≤ 1000)
    ∧ format_ts ⟨7323, 2⟩ = "01:01:01,500"
    ∧ format_ts ⟨14655, 4⟩ = "01:01:03,750" := by
  refine ⟨?_, by decide, by decide⟩
  intro q hd hnn
  obtain ⟨habs, h0, h1⟩ := msOf_spec q hd hnn
  refine ⟨?_, habs, h0, h1⟩
  unfold format_ts
  rw [hour_component q hd, minute_component q hd, second_component q hd]

/-- Witness for the amended C5 at `3661.5` seconds. -/
theorem claim_C5_amended_witness :
    format_ts ⟨7323, 2⟩ =
      padInt 2 ⌊(PyF.val ⟨7323, 2⟩) / 3600⌋ ++ (":")
        ++ padInt 2 (⌊(PyF.val ⟨7323, 2⟩) / 60⌋ % 60) ++ (":")
        ++ padInt 2 (⌊PyF.val ⟨7323, 2⟩⌋ % 60) ++ (",")
        ++ padInt 3 (msOf ⟨7323, 2⟩) :=
  (claim_C5_amended.1 ⟨7323, 2⟩ (by decide) (by decide)).1

end YTProxy
